import Mathlib

/-!  Shallow embedding of the go-boilingdata WebSocket client (package wsclient
     plus the messages package): the correlation table (a concurrent map from
     request id to pending / error / sub-batch collection), sub-batch
     reassembly in GetResponseSync, key extraction (extractKeys / parse), and
     the connection lifecycle (Connect, shutdown, idle timer, sender and
     receiver loops).  Maps are modelled as association lists with unique keys;
     arbitrary concurrent-map iteration order is captured by quantifying over
     all arrangements of the entries. -/

namespace Wsclient

/-- Decoded response envelope (messages.Response).  Row abstracts one element
    of the Data array (Go: a map from string to an arbitrary JSON value); the
    client never inspects row contents, it only concatenates rows and tests
    emptiness, so the row type is a parameter. -/
structure Response (Row : Type) where
  messageType : String
  requestID : String
  batchSerial : Int
  totalBatches : Int
  splitSerial : Int
  totalSplitSerials : Int
  cacheInfo : String
  subBatchSerial : Int
  totalSubBatches : Int
  data : List Row
  keys : List String
deriving DecidableEq

/-- One stored value of the correlation table (wsc.resultsMap): Go interface
    values are nil (pending), an error, or a concurrent map from sub-batch
    key to response fragment. -/
inductive RMVal (Row : Type) where
  | nil
  | err (e : String)
  | frags (m : List (String × Response Row))
deriving DecidableEq

/-- The correlation table: request id (or a reserved key) to stored value. -/
abbrev RMap (Row : Type) := List (String × RMVal Row)

/-- Sub-batch collection: sub-batch key (see runeKey) to fragment. -/
abbrev FragMap (Row : Type) := List (String × Response Row)

/-- Lookup in a string-keyed map (cmap.ConcurrentMap.Get). -/
def mapGet {V : Type} : List (String × V) → String → Option V
  | [], _ => none
  | (a, b) :: t, k => if a = k then some b else mapGet t k

/-- Insert or replace in a string-keyed map (cmap.ConcurrentMap.Set).  The
    entry order of the model is irrelevant: concurrent-map iteration order is
    arbitrary, and theorems quantify over all arrangements. -/
def mapSet {V : Type} (m : List (String × V)) (k : String) (v : V) : List (String × V) :=
  (k, v) :: m.filter (fun p => !(p.1 == k))

/-- Go conversion string(i) of an integer to a string: the one-character
    string holding code point i, or the replacement character U+FFFD when i
    is not a valid code point (negative, a surrogate, or above 0x10FFFF).
    Used both by receiveMessageAsync (string(response.SubBatchSerial)) and by
    GetResponseSync (string(rune(i))). -/
def runeKey (n : Int) : String :=
  if (0 ≤ n ∧ n < 55296) ∨ (57344 ≤ n ∧ n < 1114112) then
    String.mk [Char.ofNat n.toNat]
  else
    String.mk [Char.ofNat 65533]

/-- bytes.IndexByte: index of the first occurrence of c in the byte slice,
    or -1 when c does not occur. -/
def indexByte : List Char → Char → Int
  | [], _ => -1
  | a :: l, c =>
    if a = c then 0
    else
      if indexByte l c < 0 then -1 else indexByte l c + 1

/-- The scanning loop of wsclient.parse, translated with the source's index
    arithmetic.  The fuel argument bounds the number of loop iterations (the
    index strictly increases by at least two per iteration); parse supplies a
    sufficient bound and parse_eq_specScan certifies the translation against
    the recursive specification-side scan. -/
def parseLoopF : Nat → List Char → Nat → List String → List String
  | 0, _, _, keys => keys
  | fuel + 1, rawData, index, keys =>
    if index < rawData.length then
      let keyStart := indexByte (rawData.drop index) '"'
      if keyStart = -1 then keys
      else
        let index1 := index + keyStart.toNat + 1
        let keyEnd := indexByte (rawData.drop index1) '"'
        if keyEnd = -1 then keys
        else
          let key := ((rawData.drop index1).take keyEnd.toNat).asString
          let keys1 :=
            if index1 + keyEnd.toNat + 1 < rawData.length ∧
               ((rawData.drop (index1 + keyEnd.toNat)).take 2).asString = "\":" then
              keys ++ [key]
            else keys
          parseLoopF fuel rawData (index1 + keyEnd.toNat + 1) keys1
    else keys

/-- wsclient.parse: scan the raw bytes of one row object left to right for
    its keys, a key being a quoted substring whose closing quote is
    immediately followed by a colon. -/
def parse (rawData : List Char) : List String :=
  parseLoopF (rawData.length + 1) rawData 0 []

/-- Split a byte sequence at double quotes; helper for the specification-side
    reading of key extraction. -/
def quoteSplit : List Char → List (List Char)
  | [] => [[]]
  | c :: rest =>
    if c = '"' then [] :: quoteSplit rest
    else
      match quoteSplit rest with
      | s :: ss => (c :: s) :: ss
      | [] => [[c]]

/-- Specification-side acceptance (spec section 4.4): pairing the segments
    after the first quote two by two gives, for each candidate key, the
    segment following its closing quote; the candidate is accepted exactly
    when that segment starts with a colon (the closing quote is immediately
    followed by a colon).  A trailing candidate without a closing quote is
    dropped. -/
def acceptPairs : List (List Char) → List String
  | key :: next :: rest =>
    (if next.head? = some ':' then [key.asString] else []) ++ acceptPairs rest
  | _ => []

/-- Specification-side key extraction of one row object (spec section 4.4):
    every substring between a pair of double quotes, scanned left to right,
    is a key candidate, accepted exactly when the closing quote is
    immediately followed by a colon. -/
def specScan (l : List Char) : List String :=
  acceptPairs ((quoteSplit l).drop 1)

/-- wsclient.extractKeys after the JSON library has decoded the envelope's
    data array: the argument is none when unmarshalling failed, otherwise the
    list of the array elements' raw bytes.  An empty data array gives no
    keys; otherwise the first element's raw bytes are scanned by parse. -/
def extractKeys : Option (List (List Char)) → Option (List String)
  | none => none
  | some [] => none
  | some (first :: _) => some (parse first)

instance exceptDecEq {e a : Type} [DecidableEq e] [DecidableEq a] :
    DecidableEq (Except e a) := fun x y =>
  match x, y with
  | Except.error u, Except.error v =>
    if h : u = v then isTrue (by rw [h]) else isFalse (by intro hh; cases hh; exact h rfl)
  | Except.ok u, Except.ok v =>
    if h : u = v then isTrue (by rw [h]) else isFalse (by intro hh; cases hh; exact h rfl)
  | Except.error _, Except.ok _ => isFalse (by intro hh; cases hh)
  | Except.ok _, Except.error _ => isFalse (by intro hh; cases hh)

/-- Result of one pass of the polling loop body of GetResponseSync. -/
inductive PollStep (Row : Type) where
  | cont (rm : RMap Row) (temp : Option (Response Row))
  | ret (r : Except String (Response Row)) (rm : RMap Row)
  | panicked
deriving DecidableEq

/-- Outcome of GetResponseSync: the returned response or error together with
    the final correlation table, or a run-time panic (a failing interface
    type assertion in the Go source). -/
inductive SyncOutcome (Row : Type) where
  | ret (r : Except String (Response Row)) (rm : RMap Row)
  | panicked
deriving DecidableEq

variable {Row : Type}

/-- The merge loop of GetResponseSync (for i from 0 to Count() inclusive,
    append the rows of the fragment stored under string(rune(i)), skipping
    missing keys). -/
def mergeData (m : FragMap Row) : List Row :=
  (List.range (m.length + 1)).foldl
    (fun (acc : List Row) (i : Nat) =>
      match mapGet m (runeKey (i : Int)) with
      | some r => acc ++ r.data
      | none => acc) []

/-- The sub-batch-collection branch of the polling loop body (the code under
    the cmap type assertion): pick the first iterated fragment as temp if
    temp is still unset, fail fast on empty first-seen data, and when the
    declared total is zero or equals the stored count, merge all fragments
    ordered by serial, write the merged rows into the stored fragment keyed
    by the count (falling back to key zero), and return that fragment.  The
    source panics (nil interface assertion) when neither key is present. -/
def pollFrags (rm : RMap Row) (temp : Option (Response Row)) (requestID : String)
    (m : FragMap Row) : PollStep Row :=
  match m with
  | [] => PollStep.cont rm temp
  | (k0, r0) :: rest =>
    if (temp.getD r0).data.length = 0 then
      PollStep.ret (Except.error "No response from server. Check SQL syntax") rm
    else if (temp.getD r0).totalSubBatches = 0 ∨
        (temp.getD r0).totalSubBatches = (((k0, r0) :: rest).length : Int) then
      match mapGet ((k0, r0) :: rest) (runeKey (((k0, r0) :: rest).length : Int)) with
      | some fr =>
        PollStep.ret (Except.ok { fr with data := mergeData ((k0, r0) :: rest) })
          (mapSet rm requestID (RMVal.frags
            (mapSet ((k0, r0) :: rest)
              (runeKey (((k0, r0) :: rest).length : Int))
              { fr with data := mergeData ((k0, r0) :: rest) })))
      | none =>
        match mapGet ((k0, r0) :: rest) (runeKey 0) with
        | some fr =>
          PollStep.ret (Except.ok { fr with data := mergeData ((k0, r0) :: rest) })
            (mapSet rm requestID (RMVal.frags
              (mapSet ((k0, r0) :: rest) (runeKey 0)
                { fr with data := mergeData ((k0, r0) :: rest) })))
        | none => PollStep.panicked
    else PollStep.cont rm (some (temp.getD r0))

/-- One iteration of the polling loop of GetResponseSync, as a function of
    the correlation table, the persistent temp pointer (the first fragment
    seen by an earlier iteration, if any), and the request id.  The source
    panics when the reserved error slot holds a non-error non-nil value
    (assertion v.(error)); an entry that is neither nil, an error, nor a
    collection cannot occur. -/
def pollOnce (rm : RMap Row) (temp : Option (Response Row)) (requestID : String) :
    PollStep Row :=
  match mapGet rm "error" with
  | some (RMVal.err e) => PollStep.ret (Except.error e) rm
  | some (RMVal.frags _) => PollStep.panicked
  | _ =>
    match mapGet rm requestID with
    | none => PollStep.cont rm temp
    | some (RMVal.err e) => PollStep.ret (Except.error e) rm
    | some responses =>
      match mapGet rm "" with
      | some (RMVal.err e) => PollStep.ret (Except.error e) (mapSet rm "" RMVal.nil)
      | _ =>
        match responses with
        | RMVal.nil => PollStep.cont rm temp
        | RMVal.err e => PollStep.ret (Except.error e) rm
        | RMVal.frags m => pollFrags rm temp requestID m

/-- The polling loop of GetResponseSync with the timeout channel modelled as
    fuel: every iteration polls the table once; exhausted fuel is the
    timeout return. -/
def getLoop : Nat → RMap Row → Option (Response Row) → String → SyncOutcome Row
  | 0, rm, _, _ =>
    SyncOutcome.ret (Except.error "timeout occurred while waiting for response") rm
  | fuel + 1, rm, temp, requestID =>
    match pollOnce rm temp requestID with
    | PollStep.cont rm1 temp1 => getLoop fuel rm1 temp1 requestID
    | PollStep.ret r rm1 => SyncOutcome.ret r rm1
    | PollStep.panicked => SyncOutcome.panicked

/-- wsclient.GetResponseSync: poll the correlation table for the outcome of
    the request until a result, an error, or the timeout. -/
def GetResponseSync (fuel : Nat) (rm : RMap Row) (requestID : String) : SyncOutcome Row :=
  getLoop fuel rm none requestID

/-- The DATA branch of receiveMessageAsync: ensure the request id's entry is
    a sub-batch collection (created on the first data frame for that id),
    attach the extracted keys when this fragment is the last one (declared
    total zero, or serial equal to the declared total), and store the
    fragment under the string of its sub-batch serial.  msgKeys stands for
    the result of extractKeys on the raw frame bytes. -/
def receiveDataStep (rm : RMap Row) (response : Response Row) (msgKeys : List String) :
    RMap Row :=
  let m := match mapGet rm response.requestID with
    | some (RMVal.frags m0) => m0
    | _ => []
  let response1 :=
    if response.totalSubBatches = 0 ∨ response.totalSubBatches = response.subBatchSerial then
      { response with keys := msgKeys }
    else response
  mapSet rm response.requestID
    (RMVal.frags (mapSet m (runeKey response.subBatchSerial) response1))

/-- wsclient.SendMessage: before enqueueing the frame the reserved error
    slot and the request id's own entry are both overwritten with nil
    (pending); the channel send itself has no table effect. -/
def SendMessage (rm : RMap Row) (payloadRequestID : String) : RMap Row :=
  mapSet (mapSet rm "error" RMVal.nil) payloadRequestID RMVal.nil

/-- The slot is absent or holds nil: neither an error nor a collection. -/
def slotClean (rm : RMap Row) (k : String) : Bool :=
  match mapGet rm k with
  | none => true
  | some RMVal.nil => true
  | _ => false

/-- The slot does not hold an error value. -/
def errFree (rm : RMap Row) (k : String) : Bool :=
  match mapGet rm k with
  | some (RMVal.err _) => false
  | _ => true

/-- The canonical sub-batch collection of a fully received batched response:
    for every serial s from 1 to N, the fragment f s stored under the string
    of its serial. -/
def canonFrags (N : Nat) (f : Nat → Response Row) : FragMap Row :=
  (List.range N).map (fun j => (runeKey ((j + 1 : Nat) : Int), f (j + 1)))

/-- Concatenation of the fragments' rows ordered by increasing serial. -/
def serialConcat (N : Nat) (f : Nat → Response Row) : List Row :=
  ((List.range N).map (fun j => (f (j + 1)).data)).flatten

/-- The request id's entry is not (yet) a sub-batch collection. -/
def notFrags (rm : RMap Row) (k : String) : Bool :=
  match mapGet rm k with
  | some (RMVal.frags _) => false
  | _ => true

/-- Concrete response envelope for test instances (rows are strings). -/
def mkResp (rid : String) (serial total : Int) (d ks : List String) : Response String :=
  { messageType := "DATA", requestID := rid, batchSerial := 0, totalBatches := 1,
    splitSerial := 0, totalSplitSerials := 0, cacheInfo := "", subBatchSerial := serial,
    totalSubBatches := total, data := d, keys := ks }

/-- The outcome is a normal return carrying exactly the response r. -/
def retOk (o : SyncOutcome String) (r : Response String) : Bool :=
  match o with
  | SyncOutcome.ret (Except.ok r1) _ => r1 = r
  | _ => false

/-- The outcome is a normal return carrying some response (not an error). -/
def isOkOutcome (o : SyncOutcome String) : Bool :=
  match o with
  | SyncOutcome.ret (Except.ok _) _ => true
  | _ => false

def c1wFragA : Response String := mkResp "req-1" 1 2 ["row-a"] []

def c1wFragB : Response String := mkResp "req-1" 2 2 ["row-b1", "row-b2"] ["k"]

def c1wF : Nat → Response String := fun s => if s = 2 then c1wFragB else c1wFragA

def c1wRM : RMap String :=
  [("error", RMVal.nil),
   ("req-1", RMVal.frags [(runeKey 2, c1wFragB), (runeKey 1, c1wFragA)])]

def c1xFrag : Response String := mkResp "req-1" 1 1 [] []

def c1xRM : RMap String :=
  [("error", RMVal.nil), ("req-1", RMVal.frags [(runeKey 1, c1xFrag)])]

def c5xFrag1 : Response String := mkResp "q" 1 2 ["r1"] []

def c5xFrag2 : Response String := mkResp "q" 2 2 ["r2"] ["a"]

def c5xMap : FragMap String := [(runeKey 1, c5xFrag1), (runeKey 2, c5xFrag2)]

def c5xRM : RMap String := [("error", RMVal.nil), ("q", RMVal.frags c5xMap)]

def c5xMerged : Response String := { c5xFrag2 with data := ["r1", "r2"] }

def c5wF : Nat → Response String := fun s => if s = 2 then c5xFrag2 else c5xFrag1

def c6wFrag : Response String := mkResp "w" 1 1 [] []

def c6wRM : RMap String :=
  [("error", RMVal.nil), ("w", RMVal.frags [(runeKey 1, c6wFrag)])]

def c7wFrag : Response String := mkResp "u" 1 0 ["only-row"] []

def c7wRM : RMap String := receiveDataStep (SendMessage ([] : RMap String) "u") c7wFrag []

def c7xFrag : Response String := mkResp "u" 2 0 ["row"] []

def c7xRM : RMap String := receiveDataStep (SendMessage ([] : RMap String) "u") c7xFrag []

/-- Go time.Duration values in nanoseconds; time.Minute. -/
def minuteNs : Int := 60000000000

/-- Modelled from the spec: constants.IdleTimeoutMinutes, the package default
    idle window (the constants package is not among the given sources).  Its
    exact magnitude matters to no claim — only that it is the constant the
    sender resets the timer to; it is fixed here at 15 minutes. -/
def IdleTimeoutMinutes : Int := 15 * minuteNs

/-- Client state (WSSClient): the connection handle (nil when closed), the
    configured idle window field, the duration the idle timer is currently
    armed with, the last recorded error string, the correlation table, and
    whether the stop channel is non-nil. -/
structure WSSClient (Row : Type) where
  conn : Option Nat
  idleTimeoutMinutes : Int
  idleTimerDuration : Int
  error : String
  resultsMap : RMap Row
  stopChannelOpen : Bool
deriving DecidableEq

/-- wsclient.resetIdleTimer: a non-positive configured window falls back to
    the default constant, a positive one is multiplied by a minute; the
    timer is stopped and re-armed with the resulting duration. -/
def resetIdleTimer (s : WSSClient Row) : WSSClient Row :=
  if s.idleTimeoutMinutes ≤ 0 then
    { s with idleTimeoutMinutes := IdleTimeoutMinutes,
             idleTimerDuration := IdleTimeoutMinutes }
  else
    { s with idleTimeoutMinutes := s.idleTimeoutMinutes * minuteNs,
             idleTimerDuration := s.idleTimeoutMinutes * minuteNs }

/-- Effects observable from one shutdown invocation: whether this invocation
    closed the stop channel and whether it closed the connection handle. -/
structure ShutdownEffects where
  closedStop : Bool
  closedConn : Bool
deriving DecidableEq

/-- wsclient.shutdown, serialised by the client mutex (each invocation is
    atomic): clear the correlation table; close and nil the stop channel if
    it is non-nil; close and nil the connection if it is non-nil.  Returns
    the new state together with this invocation's observable effects. -/
def shutdown (s : WSSClient Row) : WSSClient Row × ShutdownEffects :=
  ({ s with resultsMap := [], stopChannelOpen := false, conn := none },
   { closedStop := s.stopChannelOpen, closedConn := s.conn.isSome })

/-- wsclient.IsWebSocketClosed: the connection handle is nil. -/
def IsWebSocketClosed (s : WSSClient Row) : Bool := s.conn.isNone

/-- wsclient.connect (the dialing goroutine), as a function of the dial
    result: a failed dial records the error string and leaves the client
    closed; a successful dial stores the handle, recreates the stop channel,
    and starts the sender and receiver loops. -/
def connectInner (s : WSSClient Row) (dial : Except String Nat) : WSSClient Row :=
  match dial with
  | Except.error e => { s with error := e }
  | Except.ok h => { s with conn := some h, stopChannelOpen := true }

/-- wsclient.Connect: a no-op when a connection is already open; otherwise
    it dials (waiting on ConnInit for the result). -/
def Connect (s : WSSClient Row) (dial : Except String Nat) : WSSClient Row :=
  if IsWebSocketClosed s then connectInner s dial else s

inductive SendOutcome (Row : Type) where
  | cont (s : WSSClient Row)
  | exit (s : WSSClient Row)
deriving DecidableEq

/-- One iteration of sendMessageAsync for one dequeued frame, as a function
    of the write result: with no connection, record the fatal not-connected
    error under the reserved key and exit; otherwise reset the idle timer to
    the default constant (wsc.idleTimer.Reset(constants.IdleTimeoutMinutes))
    before the write, then exit recording a write error, or continue on
    success.  Exiting runs the deferred shutdown. -/
def sendMessageIter (s : WSSClient Row) (writeErr : Option String) : SendOutcome Row :=
  match s.conn with
  | none =>
    SendOutcome.exit { s with
      error := "Could not send message to websocket -> Not connected to WebSocket server",
      resultsMap := mapSet s.resultsMap "error"
        (RMVal.err "Could not send message to websocket -> Not connected to WebSocket server") }
  | some _ =>
    match writeErr with
    | some e =>
      SendOutcome.exit { s with
        idleTimerDuration := IdleTimeoutMinutes,
        resultsMap := mapSet s.resultsMap "error"
          (RMVal.err ("Could not send message to websocket: " ++ e)) }
    | none => SendOutcome.cont { s with idleTimerDuration := IdleTimeoutMinutes }

/-- Outcome of decoding one inbound frame (json.Unmarshal into the nil
    response pointer): success; failure leaving a partially populated
    response (the fields decoded before the offending one); or failure
    leaving the pointer nil, as a JSON syntax error does. -/
inductive DecodeResult (Row : Type) where
  | ok (r : Response Row)
  | failPartial (r : Response Row)
  | failNil
deriving DecidableEq

/-- Outcome of the second decode of the same frame into the log envelope. -/
inductive LogDecode where
  | ok (logLevel logMessage : String)
  | fail
deriving DecidableEq

inductive ReceiveOutcome (Row : Type) where
  | cont (rm : RMap Row)
  | panicked
deriving DecidableEq

/-- The message-type dispatch of one (at least partially) decoded response
    envelope, the rest of a receiveMessageAsync iteration: LOG_MESSAGE
    frames record ERROR-level log messages (or the log decode error) under
    the request id, other levels are traced only; DATA frames are stored by
    receiveDataStep; other types are ignored. -/
def receiveDispatch (rm : RMap Row) (r : Response Row) (ld : LogDecode)
    (logErrMsg : String) (dataKeys : List String) : RMap Row :=
  if r.messageType = "LOG_MESSAGE" then
    match ld with
    | LogDecode.fail =>
      mapSet rm r.requestID (RMVal.err ("Error parsing JSON: " ++ logErrMsg))
    | LogDecode.ok lvl msg =>
      if lvl = "ERROR" then
        mapSet rm r.requestID (RMVal.err ("Log message from server: " ++ msg))
      else rm
  else if r.messageType = "DATA" then receiveDataStep rm r dataKeys
  else rm

/-- One iteration of receiveMessageAsync after a successful read, as a
    function of the abstract decode results: a decode failure that leaves
    the response pointer nil makes the source dereference that nil pointer
    to read response.RequestID, a run-time panic; a failure with a partial
    object records the parse error under the recoverable request id and the
    iteration continues into the dispatch; a success dispatches directly. -/
def receiveMessageStep (rm : RMap Row) (d : DecodeResult Row) (decodeErrMsg : String)
    (ld : LogDecode) (logErrMsg : String) (dataKeys : List String) : ReceiveOutcome Row :=
  match d with
  | DecodeResult.failNil => ReceiveOutcome.panicked
  | DecodeResult.failPartial r =>
    ReceiveOutcome.cont (receiveDispatch
      (mapSet rm r.requestID (RMVal.err ("Error parsing JSON: " ++ decodeErrMsg)))
      r ld logErrMsg dataKeys)
  | DecodeResult.ok r =>
    ReceiveOutcome.cont (receiveDispatch rm r ld logErrMsg dataKeys)

def c4xBase : WSSClient String :=
  { conn := some 0, idleTimeoutMinutes := 5, idleTimerDuration := 0,
    error := "", resultsMap := [], stopChannelOpen := true }

def c4xClient : WSSClient String := resetIdleTimer c4xBase


theorem mapGet_mapSet_self {V : Type} (m : List (String × V)) (k : String) (v : V) :
    mapGet (mapSet m k v) k = some v := by
  simp [mapSet, mapGet]

theorem mapGet_filter_ne {V : Type} (m : List (String × V)) (k k' : String) (h : k' ≠ k) :
    mapGet (m.filter (fun p => !(p.1 == k))) k' = mapGet m k' := by
  induction m with
  | nil => rfl
  | cons p t ih =>
    obtain ⟨a, b⟩ := p
    by_cases hp : a = k
    · have hak' : ¬a = k' := fun he => h (he ▸ hp)
      simp [List.filter_cons, hp, mapGet, hak', ih, Ne.symm h]
    · simp [List.filter_cons, hp, mapGet, ih]

theorem mapGet_mapSet_ne {V : Type} (m : List (String × V)) (k k' : String) (v : V)
    (h : k' ≠ k) : mapGet (mapSet m k v) k' = mapGet m k' := by
  simp only [mapSet, mapGet, if_neg (fun he : k = k' => h he.symm)]
  exact mapGet_filter_ne m k k' h

theorem indexByte_cases (l : List Char) (c : Char) :
    indexByte l c = -1 ∨ ∃ k : Nat, indexByte l c = (k : Int) := by
  induction l with
  | nil => exact Or.inl rfl
  | cons a t ih =>
    by_cases h : a = c
    · exact Or.inr ⟨0, by simp [indexByte, h]⟩
    · rcases ih with h1 | ⟨k, hk⟩
      · exact Or.inl (by simp [indexByte, h, h1])
      · refine Or.inr ⟨k + 1, ?_⟩
        have hnn : ¬ (indexByte t c < 0) := by rw [hk]; omega
        rw [indexByte, if_neg h, if_neg hnn, hk]
        push_cast
        ring

theorem indexByte_neg (l : List Char) (c : Char) (h : indexByte l c = -1) :
    ∀ x ∈ l, x ≠ c := by
  induction l with
  | nil => intro x hx; cases hx
  | cons a t ih =>
    intro x hx
    by_cases ha : a = c
    · rw [indexByte, if_pos ha] at h; cases h
    · rw [indexByte, if_neg ha] at h
      rcases List.mem_cons.mp hx with hx | hx
      · exact hx ▸ ha
      · rcases indexByte_cases t c with h1 | ⟨k, hk⟩
        · exact ih h1 x hx
        · have hnn : ¬ (indexByte t c < 0) := by rw [hk]; omega
          rw [if_neg hnn, hk] at h
          omega

theorem indexByte_ofNat (l : List Char) (c : Char) (k : Nat)
    (h : indexByte l c = (k : Int)) :
    (∀ x ∈ l.take k, x ≠ c) ∧ l.drop k = c :: l.drop (k + 1) := by
  induction l generalizing k with
  | nil =>
    exfalso
    simp only [indexByte] at h
    omega
  | cons a t ih =>
    by_cases ha : a = c
    · rw [indexByte, if_pos ha] at h
      have hk : k = 0 := by omega
      subst hk
      refine ⟨?_, ?_⟩
      · intro x hx; simp at hx
      · simp [ha]
    · rw [indexByte, if_neg ha] at h
      rcases indexByte_cases t c with h1 | ⟨k', hk'⟩
      · rw [h1, if_pos (by norm_num)] at h
        exfalso; omega
      · have hnn : ¬ (indexByte t c < 0) := by rw [hk']; omega
        rw [if_neg hnn, hk'] at h
        have hkk : k = k' + 1 := by omega
        subst hkk
        obtain ⟨h1, h2⟩ := ih k' hk'
        refine ⟨?_, by simpa using h2⟩
        intro x hx
        rw [List.take_succ_cons] at hx
        rcases List.mem_cons.mp hx with hx1 | hx1
        · exact hx1 ▸ ha
        · exact h1 x hx1

theorem quoteSplit_no_quote (l : List Char) (h : ∀ x ∈ l, x ≠ '"') :
    quoteSplit l = [l] := by
  induction l with
  | nil => rfl
  | cons a t ih =>
    have ha : a ≠ '"' := h a (List.mem_cons_self a t)
    rw [quoteSplit, if_neg ha, ih (fun x hx => h x (List.mem_cons_of_mem a hx))]

theorem quoteSplit_split (pre post : List Char) (h : ∀ x ∈ pre, x ≠ '"') :
    quoteSplit (pre ++ '"' :: post) = pre :: quoteSplit post := by
  induction pre with
  | nil => simp [quoteSplit]
  | cons a t ih =>
    have ha : a ≠ '"' := h a (List.mem_cons_self a t)
    rw [List.cons_append, quoteSplit, if_neg ha,
      ih (fun x hx => h x (List.mem_cons_of_mem a hx))]

theorem quoteSplit_head (l : List Char) :
    ∃ ss, quoteSplit l = l.takeWhile (fun c => !(c == '"')) :: ss := by
  induction l with
  | nil => exact ⟨[], rfl⟩
  | cons a t ih =>
    by_cases ha : a = '"'
    · exact ⟨quoteSplit t, by subst ha; simp [quoteSplit, List.takeWhile_cons]⟩
    · obtain ⟨ss, hss⟩ := ih
      exact ⟨ss, by rw [quoteSplit, if_neg ha, hss]; simp [List.takeWhile_cons, ha]⟩

theorem asString_inj {a b : List Char} (h : a.asString = b.asString) : a = b := by
  have h2 := congrArg String.data h
  simpa [List.asString] using h2

theorem parseLoopF_eq (fuel : Nat) : ∀ (rawData : List Char) (index : Nat) (keys : List String),
    rawData.length - index + 1 ≤ fuel →
    parseLoopF fuel rawData index keys =
      keys ++ acceptPairs ((quoteSplit (rawData.drop index)).drop 1) := by
  induction fuel with
  | zero => intro rawData index keys h; omega
  | succ fuel ih =>
    intro rawData index keys hfuel
    by_cases hidx : index < rawData.length
    case neg =>
      have hnil : rawData.drop index = [] := List.drop_eq_nil_of_le (by omega)
      rw [parseLoopF, if_neg hidx, hnil]
      simp [quoteSplit, acceptPairs]
    case pos =>
      rcases indexByte_cases (rawData.drop index) '"' with h1 | ⟨k, hk⟩
      · rw [parseLoopF, if_pos hidx,
          quoteSplit_no_quote _ (indexByte_neg _ _ h1)]
        simp [h1, acceptPairs]
      · obtain ⟨hpre, hdropk⟩ := indexByte_ofNat _ '"' k hk
        have hs1 : (rawData.drop index).drop (k + 1) = rawData.drop (index + k + 1) := by
          rw [List.drop_drop]; congr 1
        have hsplit : quoteSplit (rawData.drop index)
            = (rawData.drop index).take k :: quoteSplit (rawData.drop (index + k + 1)) := by
          calc quoteSplit (rawData.drop index)
              = quoteSplit ((rawData.drop index).take k
                  ++ '"' :: rawData.drop (index + k + 1)) := by
                rw [← hs1, ← hdropk, List.take_append_drop]
            _ = (rawData.drop index).take k
                  :: quoteSplit (rawData.drop (index + k + 1)) :=
                quoteSplit_split _ _ hpre
        have hkne : ¬ ((k : Int) = -1) := by omega
        rw [parseLoopF, if_pos hidx]
        simp only [hk, Int.toNat_natCast, if_neg hkne]
        rcases indexByte_cases (rawData.drop (index + k + 1)) '"' with h2 | ⟨k2, hk2⟩
        · simp only [h2, if_pos (show (-1 : Int) = -1 from rfl)]
          rw [hsplit, quoteSplit_no_quote _ (indexByte_neg _ _ h2)]
          simp [acceptPairs]
        · obtain ⟨hpre2, hdropk2⟩ := indexByte_ofNat _ '"' k2 hk2
          have hk2ne : ¬ ((k2 : Int) = -1) := by omega
          simp only [hk2, Int.toNat_natCast, if_neg hk2ne]
          have hs2 : (rawData.drop (index + k + 1)).drop (k2 + 1)
              = rawData.drop (index + k + 1 + k2 + 1) := by
            rw [List.drop_drop]; congr 1
          have hs2a : (rawData.drop (index + k + 1)).drop k2
              = rawData.drop (index + k + 1 + k2) := by
            rw [List.drop_drop]
          have hdrop2 : rawData.drop (index + k + 1 + k2)
              = '"' :: rawData.drop (index + k + 1 + k2 + 1) := by
            rw [← hs2, ← hs2a, hdropk2]
          have hsplit2 : quoteSplit (rawData.drop (index + k + 1))
              = (rawData.drop (index + k + 1)).take k2
                :: quoteSplit (rawData.drop (index + k + 1 + k2 + 1)) := by
            calc quoteSplit (rawData.drop (index + k + 1))
                = quoteSplit ((rawData.drop (index + k + 1)).take k2
                    ++ '"' :: rawData.drop (index + k + 1 + k2 + 1)) := by
                  rw [← hs2, ← hdropk2, List.take_append_drop]
              _ = _ := quoteSplit_split _ _ hpre2
          rw [hsplit, hsplit2]
          rcases hclose : rawData.drop (index + k + 1 + k2 + 1) with _ | ⟨x, t⟩
          · -- nothing after the closing quote: the candidate is rejected and
            -- the rest of the scan finds nothing
            have hlen0 := congrArg List.length hclose
            rw [List.length_drop] at hlen0
            have hcond : ¬ (index + k + 1 + k2 + 1 < rawData.length ∧
                ((rawData.drop (index + k + 1 + k2)).take 2).asString = "\":") := by
              rintro ⟨hc1, -⟩
              simp at hlen0
              omega
            rw [if_neg hcond,
              ih rawData (index + k + 1 + k2 + 1) keys (by omega), hclose]
            simp [quoteSplit, acceptPairs]
          · obtain ⟨ss, hss⟩ := quoteSplit_head (x :: t)
            have hlen1 := congrArg List.length hclose
            rw [List.length_drop] at hlen1
            have hc1 : index + k + 1 + k2 + 1 < rawData.length := by
              simp at hlen1
              omega
            by_cases hx : x = ':'
            · subst hx
              have hcond : index + k + 1 + k2 + 1 < rawData.length ∧
                  ((rawData.drop (index + k + 1 + k2)).take 2).asString = "\":" := by
                refine ⟨hc1, ?_⟩
                rw [hdrop2, hclose]
                rfl
              rw [if_pos hcond,
                ih rawData (index + k + 1 + k2 + 1) (keys ++ [((rawData.drop (index + k + 1)).take k2).asString]) (by omega),
                hclose, hss]
              have hnext : (((':' : Char) :: t).takeWhile (fun c => !(c == '"'))).head? = some ':' := by
                rw [List.takeWhile_cons]
                simp
              simp [acceptPairs, hnext]
            · have hcond : ¬ (index + k + 1 + k2 + 1 < rawData.length ∧
                  ((rawData.drop (index + k + 1 + k2)).take 2).asString = "\":") := by
                rintro ⟨-, hc2⟩
                rw [hdrop2, hclose] at hc2
                have h3 := asString_inj hc2
                simp at h3
                exact hx h3
              rw [if_neg hcond,
                ih rawData (index + k + 1 + k2 + 1) keys (by omega), hclose, hss]
              have hnext : ¬ (((x :: t).takeWhile (fun c => !(c == '"'))).head? = some ':') := by
                rw [List.takeWhile_cons]
                by_cases hq : x = '"'
                · simp [hq]
                · simp [hq, hx]
              simp [acceptPairs, hnext]

/-- wsclient.parse agrees with the specification-side scan on every input:
    scanning left to right, every substring between a pair of double quotes
    is a key candidate, accepted exactly when the closing quote is
    immediately followed by a colon. -/
theorem parse_eq_specScan (l : List Char) : parse l = specScan l := by
  rw [parse, specScan, parseLoopF_eq (l.length + 1) l 0 [] (by omega), List.drop_zero,
    List.nil_append]

/-- C2: key extraction scans the raw bytes of the first element of the
    envelope's data array left to right, treating every substring between a
    pair of double quotes as a candidate key and accepting it exactly when
    the closing quote is immediately followed by a colon (parse coincides
    with the specification-side scan specScan on every input); on the
    envelope whose decoded data array holds the single raw element
    consisting of the object with keys a and b, it returns the ordered
    sequence a, b; and on an envelope whose data array is empty it returns
    no keys. -/
theorem c2_key_extraction :
    (∀ l : List Char, parse l = specScan l) ∧
    extractKeys (some [("\x7b\"a\":1,\"b\":\"x\"\x7d").toList]) = some ["a", "b"] ∧
    extractKeys (some []) = none := by
  refine ⟨parse_eq_specScan, ?_, rfl⟩
  show some (parse _) = some ["a", "b"]
  rw [parse_eq_specScan]
  decide

theorem charToNat_ofNat (n : Nat) (h : n.isValidChar) : (Char.ofNat n).toNat = n := by
  simp [Char.ofNat, h, Char.toNat, Char.ofNatAux, UInt32.toNat]

theorem runeKey_ne_runeKey_zero (s : Nat) (hs : 1 ≤ s) : runeKey (s : Int) ≠ runeKey 0 := by
  have h0 : runeKey 0 = String.mk [Char.ofNat 0] := by
    rw [runeKey, if_pos (by norm_num)]
    rfl
  intro h
  rw [h0, runeKey] at h
  by_cases hg : (0 ≤ (s : Int) ∧ (s : Int) < 55296) ∨
      (57344 ≤ (s : Int) ∧ (s : Int) < 1114112)
  · rw [if_pos hg] at h
    have hd : Char.ofNat ((s : Int)).toNat = Char.ofNat 0 := by
      have h2 := congrArg String.data h
      simpa using h2
    have hts : ((s : Int)).toNat = s := Int.toNat_natCast s
    rw [hts] at hd
    have hvalid : Nat.isValidChar s := by
      rcases hg with ⟨-, h2⟩ | ⟨h1, h2⟩
      · exact Or.inl (by exact_mod_cast h2)
      · exact Or.inr ⟨by exact_mod_cast h1, by exact_mod_cast h2⟩
    have h3 := congrArg Char.toNat hd
    rw [charToNat_ofNat s hvalid] at h3
    have h0t : (Char.ofNat 0).toNat = 0 := by decide
    rw [h0t] at h3
    omega
  · rw [if_neg hg] at h
    have hd : Char.ofNat 65533 = Char.ofNat 0 := by
      have h2 := congrArg String.data h
      simpa using h2
    have h3 := congrArg Char.toNat hd
    have h1t : (Char.ofNat 65533).toNat = 65533 := by decide
    have h0t : (Char.ofNat 0).toNat = 0 := by decide
    rw [h1t, h0t] at h3
    omega

theorem mem_of_mapGet_eq_some {V : Type} (m : List (String × V)) (k : String) (v : V)
    (h : mapGet m k = some v) : (k, v) ∈ m := by
  induction m with
  | nil => cases h
  | cons p t ih =>
    obtain ⟨a, b⟩ := p
    rw [mapGet] at h
    by_cases ha : a = k
    · rw [if_pos ha] at h
      cases h
      subst ha
      exact List.mem_cons_self _ _
    · rw [if_neg ha] at h
      exact List.mem_cons_of_mem _ (ih h)

theorem mapGet_eq_none_iff {V : Type} (m : List (String × V)) (k : String) :
    mapGet m k = none ↔ k ∉ m.map Prod.fst := by
  induction m with
  | nil => simp [mapGet]
  | cons p t ih =>
    obtain ⟨a, b⟩ := p
    by_cases ha : a = k
    · subst ha; simp [mapGet]
    · simp [mapGet, ha, ih, Ne.symm ha]

theorem mapGet_eq_some_of_mem {V : Type} (m : List (String × V)) (k : String) (v : V)
    (nd : (m.map Prod.fst).Nodup) (hmem : (k, v) ∈ m) : mapGet m k = some v := by
  induction m with
  | nil => cases hmem
  | cons p t ih =>
    obtain ⟨a, b⟩ := p
    rw [List.map_cons, List.nodup_cons] at nd
    rcases List.mem_cons.mp hmem with he | hmem2
    · cases he; simp [mapGet]
    · have hak : a ≠ k := by
        intro hh
        subst hh
        exact nd.1 (List.mem_map.mpr ⟨(a, v), hmem2, rfl⟩)
      rw [mapGet, if_neg hak]
      exact ih nd.2 hmem2

theorem mapGet_perm {V : Type} {m m' : List (String × V)} (hp : m.Perm m')
    (nd : (m.map Prod.fst).Nodup) (k : String) : mapGet m k = mapGet m' k := by
  have nd' : (m'.map Prod.fst).Nodup := ((hp.map Prod.fst).nodup_iff).mp nd
  cases hv : mapGet m k with
  | none =>
    rw [mapGet_eq_none_iff] at hv
    rw [eq_comm, mapGet_eq_none_iff]
    intro hk
    exact hv (((hp.map Prod.fst).mem_iff).mpr hk)
  | some v =>
    exact (mapGet_eq_some_of_mem m' k v nd' (hp.mem_iff.mp
      (mem_of_mapGet_eq_some m k v hv))).symm

theorem mergeFold_eq (m : FragMap Row) (L : List Nat) (init : List Row) :
    L.foldl (fun (acc : List Row) (i : Nat) =>
      match mapGet m (runeKey (i : Int)) with
      | some r => acc ++ r.data
      | none => acc) init
    = init ++ (L.map (fun (i : Nat) =>
      match mapGet m (runeKey (i : Int)) with
      | some r => r.data
      | none => [])).flatten := by
  induction L generalizing init with
  | nil => simp
  | cons a L ih =>
    rw [List.foldl_cons, ih, List.map_cons, List.flatten_cons]
    cases hma : mapGet m (runeKey (a : Int)) with
    | some r => simp [hma, List.append_assoc]
    | none => simp [hma]

theorem mapGet_canonFrags (N : Nat) (f : Nat → Response Row)
    (nd : ((canonFrags N f).map Prod.fst).Nodup) (i : Nat) (h1 : 1 ≤ i) (h2 : i ≤ N) :
    mapGet (canonFrags N f) (runeKey (i : Int)) = some (f i) := by
  apply mapGet_eq_some_of_mem _ _ _ nd
  rw [canonFrags]
  refine List.mem_map.mpr ⟨i - 1, List.mem_range.mpr (by omega), ?_⟩
  have hi : i - 1 + 1 = i := by omega
  rw [hi]

theorem mapGet_canonFrags_zero (N : Nat) (f : Nat → Response Row) :
    mapGet (canonFrags N f) (runeKey 0) = none := by
  rw [mapGet_eq_none_iff]
  intro hk
  rw [canonFrags] at hk
  obtain ⟨p, hp1, hp2⟩ := List.mem_map.mp hk
  obtain ⟨j, hj1, hj2⟩ := List.mem_map.mp hp1
  subst hj2
  simp only at hp2
  exact runeKey_ne_runeKey_zero (j + 1) (by omega) hp2

theorem mergeData_canon (N : Nat) (f : Nat → Response Row) (m : FragMap Row)
    (hp : m.Perm (canonFrags N f)) (nd : (m.map Prod.fst).Nodup) :
    mergeData m = serialConcat N f := by
  have hlen : m.length = N := by
    rw [hp.length_eq, canonFrags, List.length_map, List.length_range]
  have ndc : ((canonFrags N f).map Prod.fst).Nodup := ((hp.map Prod.fst).nodup_iff).mp nd
  have hget : ∀ k, mapGet m k = mapGet (canonFrags N f) k := fun k => mapGet_perm hp nd k
  rw [mergeData, hlen, mergeFold_eq, List.nil_append, serialConcat,
    List.range_succ_eq_map, List.map_cons, List.map_map]
  have h0 : (match mapGet m (runeKey ((0 : Nat) : Int)) with
      | some r => r.data
      | none => ([] : List Row)) = ([] : List Row) := by
    rw [hget, Nat.cast_zero, mapGet_canonFrags_zero]
  rw [List.flatten_cons, h0, List.nil_append]
  congr 1
  apply List.map_congr_left
  intro j hj
  rw [List.mem_range] at hj
  have hgj : mapGet m (runeKey ((j + 1 : Nat) : Int)) = some (f (j + 1)) := by
    rw [hget]
    exact mapGet_canonFrags N f ndc (j + 1) (by omega) (by omega)
  simp only [Function.comp_apply, Nat.succ_eq_add_one, hgj]

theorem pollOnce_frags (rm : RMap Row) (temp : Option (Response Row))
    (requestID : String) (m : FragMap Row)
    (herr : slotClean rm "error" = true)
    (hblank : errFree rm "" = true)
    (hentry : mapGet rm requestID = some (RMVal.frags m)) :
    pollOnce rm temp requestID = pollFrags rm temp requestID m := by
  rw [slotClean] at herr
  rw [errFree] at hblank
  rcases hE : mapGet rm "error" with _ | v
  · rcases hB : mapGet rm "" with _ | w
    · simp [pollOnce, hE, hB, hentry]
    · cases w with
      | nil => simp [pollOnce, hE, hB, hentry]
      | err e => rw [hB] at hblank; simp at hblank
      | frags mm => simp [pollOnce, hE, hB, hentry]
  · cases v with
    | nil =>
      rcases hB : mapGet rm "" with _ | w
      · simp [pollOnce, hE, hB, hentry]
      · cases w with
        | nil => simp [pollOnce, hE, hB, hentry]
        | err e => rw [hB] at hblank; simp at hblank
        | frags mm => simp [pollOnce, hE, hB, hentry]
    | err e => rw [hE] at herr; simp at herr
    | frags mm => rw [hE] at herr; simp at herr

set_option maxRecDepth 4000 in
theorem pollFrags_merge (rm : RMap Row) (requestID : String) (N : Nat)
    (f : Nat → Response Row) (m : FragMap Row)
    (hN : 1 ≤ N)
    (hp : m.Perm (canonFrags N f))
    (nd : (m.map Prod.fst).Nodup)
    (htot : ∀ j, j < N → (f (j + 1)).totalSubBatches = (N : Int))
    (hdat : ∀ j, j < N → (f (j + 1)).data ≠ []) :
    pollFrags rm none requestID m =
      PollStep.ret (Except.ok { f N with data := serialConcat N f })
        (mapSet rm requestID (RMVal.frags
          (mapSet m (runeKey (N : Int)) { f N with data := serialConcat N f }))) := by
  have hlen : m.length = N := by
    rw [hp.length_eq, canonFrags, List.length_map, List.length_range]
  have ndc : ((canonFrags N f).map Prod.fst).Nodup := ((hp.map Prod.fst).nodup_iff).mp nd
  obtain ⟨⟨k0, r0⟩, m', rfl⟩ : ∃ p m', m = p :: m' := by
    cases m with
    | nil => simp at hlen; omega
    | cons p m' => exact ⟨p, m', rfl⟩
  have hmem : (k0, r0) ∈ canonFrags N f := hp.mem_iff.mp (List.mem_cons_self _ _)
  rw [canonFrags] at hmem
  obtain ⟨j0, hj0, hj0e⟩ := List.mem_map.mp hmem
  rw [List.mem_range] at hj0
  have hr0 : f (j0 + 1) = r0 := by
    have h2 := congrArg Prod.snd hj0e
    simpa using h2
  subst hr0
  have hglast : mapGet ((k0, f (j0 + 1)) :: m') (runeKey (N : Int)) = some (f N) := by
    rw [mapGet_perm hp nd]
    exact mapGet_canonFrags N f ndc N hN (le_refl N)
  have hmerge : mergeData ((k0, f (j0 + 1)) :: m') = serialConcat N f :=
    mergeData_canon N f _ hp nd
  rw [pollFrags, Option.getD_none]
  rw [if_neg (fun hc => hdat j0 hj0 (List.length_eq_zero.mp hc)),
    if_pos (Or.inr (by rw [htot j0 hj0, hlen]))]
  rw [hlen, hmerge, hglast]

/-- C1 (amended): for every N ≥ 1, if the correlation entry for a request id
    is a sub-batch collection holding, in any arrangement, fragments with
    sub-batch serials 1..N, every fragment declaring total N and carrying
    non-empty row data, and the reserved slots hold no error, then
    GetResponseSync for that id returns one response whose row data equals
    the concatenation of the fragments' rows ordered by increasing sub-batch
    serial, regardless of the order in which the fragments were stored. -/
theorem c1_merge_ordered (fuel : Nat) (rm : RMap Row) (requestID : String) (N : Nat)
    (f : Nat → Response Row) (m : FragMap Row)
    (hfuel : 1 ≤ fuel) (hN : 1 ≤ N)
    (herr : slotClean rm "error" = true) (hblank : errFree rm "" = true)
    (hentry : mapGet rm requestID = some (RMVal.frags m))
    (hp : m.Perm (canonFrags N f)) (nd : (m.map Prod.fst).Nodup)
    (hser : ∀ j, j < N → (f (j + 1)).subBatchSerial = ((j + 1 : Nat) : Int))
    (htot : ∀ j, j < N → (f (j + 1)).totalSubBatches = (N : Int))
    (hdat : ∀ j, j < N → (f (j + 1)).data ≠ []) :
    ∃ rm', GetResponseSync fuel rm requestID =
      SyncOutcome.ret (Except.ok { f N with data := serialConcat N f }) rm' := by
  obtain ⟨fuel0, rfl⟩ : ∃ fl, fuel = fl + 1 := ⟨fuel - 1, by omega⟩
  refine ⟨mapSet rm requestID (RMVal.frags
    (mapSet m (runeKey (N : Int)) { f N with data := serialConcat N f })), ?_⟩
  rw [GetResponseSync, getLoop,
    pollOnce_frags rm none requestID m herr hblank hentry,
    pollFrags_merge rm requestID N f m hN hp nd htot hdat]

/-- C5 (amended): when GetResponseSync completes a request whose sub-batch
    collection is full, the response it returns is the stored latest
    fragment (the one keyed by the count) with its row data overwritten in
    place by the merged rows; after the call the collection stores that
    merged response under the latest fragment's key, and the other
    fragments' entries are unchanged.  The merge is a write-back into the
    stored fragment, not a clone. -/
theorem c5_merge_writeback (fuel : Nat) (rm : RMap Row) (requestID : String) (N : Nat)
    (f : Nat → Response Row) (m : FragMap Row)
    (hfuel : 1 ≤ fuel) (hN : 1 ≤ N)
    (herr : slotClean rm "error" = true) (hblank : errFree rm "" = true)
    (hentry : mapGet rm requestID = some (RMVal.frags m))
    (hp : m.Perm (canonFrags N f)) (nd : (m.map Prod.fst).Nodup)
    (htot : ∀ j, j < N → (f (j + 1)).totalSubBatches = (N : Int))
    (hdat : ∀ j, j < N → (f (j + 1)).data ≠ []) :
    GetResponseSync fuel rm requestID =
      SyncOutcome.ret (Except.ok { f N with data := serialConcat N f })
        (mapSet rm requestID (RMVal.frags
          (mapSet m (runeKey (N : Int)) { f N with data := serialConcat N f }))) ∧
    mapGet (mapSet m (runeKey (N : Int)) { f N with data := serialConcat N f })
      (runeKey (N : Int)) = some { f N with data := serialConcat N f } ∧
    ∀ k, k ≠ runeKey (N : Int) →
      mapGet (mapSet m (runeKey (N : Int)) { f N with data := serialConcat N f }) k
        = mapGet m k := by
  refine ⟨?_, mapGet_mapSet_self _ _ _, fun k hk => mapGet_mapSet_ne _ _ _ _ hk⟩
  obtain ⟨fuel0, rfl⟩ : ∃ fl, fuel = fl + 1 := ⟨fuel - 1, by omega⟩
  rw [GetResponseSync, getLoop,
    pollOnce_frags rm none requestID m herr hblank hentry,
    pollFrags_merge rm requestID N f m hN hp nd htot hdat]

/-- C6: if the first-seen fragment in a request id's sub-batch collection
    has empty row data (and the reserved slots hold no error), then
    GetResponseSync returns immediately, at the very first poll and for
    every timeout budget, with the no-data error "No response from server.
    Check SQL syntax" instead of continuing to wait; it never hangs in this
    case. -/
theorem c6_empty_first_fragment (fuel : Nat) (rm : RMap Row) (requestID : String)
    (k0 : String) (r0 : Response Row) (rest : FragMap Row)
    (hfuel : 1 ≤ fuel)
    (herr : slotClean rm "error" = true) (hblank : errFree rm "" = true)
    (hentry : mapGet rm requestID = some (RMVal.frags ((k0, r0) :: rest)))
    (hempty : r0.data = []) :
    GetResponseSync fuel rm requestID =
      SyncOutcome.ret (Except.error "No response from server. Check SQL syntax") rm := by
  obtain ⟨fuel0, rfl⟩ : ∃ fl, fuel = fl + 1 := ⟨fuel - 1, by omega⟩
  rw [GetResponseSync, getLoop,
    pollOnce_frags rm none requestID _ herr hblank hentry,
    pollFrags, Option.getD_none, if_pos (by rw [hempty]; rfl)]

theorem mergeData_single_zero (r : Response Row) :
    mergeData [(runeKey (0 : Int), r)] = r.data := by
  have e1 : ¬ (runeKey (0 : Int) = runeKey (1 : Int)) := by decide
  rw [mergeData]
  rw [show ([(runeKey (0 : Int), r)].length + 1) = 2 from rfl]
  rw [show List.range 2 = [0, 1] from rfl]
  rw [List.foldl_cons, List.foldl_cons, List.foldl_nil]
  rw [show mapGet [(runeKey (0 : Int), r)] (runeKey ((0 : Nat) : Int)) = some r from by
    rw [mapGet, if_pos (by norm_num)]]
  rw [show mapGet [(runeKey (0 : Int), r)] (runeKey ((1 : Nat) : Int)) = none from by
    rw [mapGet, if_neg (by norm_num [e1]), mapGet]]
  simp

theorem mergeData_single_one (r : Response Row) :
    mergeData [(runeKey (1 : Int), r)] = r.data := by
  have e0 : ¬ (runeKey (1 : Int) = runeKey (0 : Int)) := by decide
  rw [mergeData]
  rw [show ([(runeKey (1 : Int), r)].length + 1) = 2 from rfl]
  rw [show List.range 2 = [0, 1] from rfl]
  rw [List.foldl_cons, List.foldl_cons, List.foldl_nil]
  rw [show mapGet [(runeKey (1 : Int), r)] (runeKey ((0 : Nat) : Int)) = none from by
    rw [mapGet, if_neg (by norm_num [e0]), mapGet]]
  rw [show mapGet [(runeKey (1 : Int), r)] (runeKey ((1 : Nat) : Int)) = some r from by
    rw [mapGet, if_pos (by norm_num)]]
  simp

/-- C7 (amended): a response whose envelope declares a total of zero
    sub-batches is treated as unbatched: once exactly one fragment with
    non-empty row data is stored for the request id (under the string of its
    sub-batch serial, as the receiver stores it), GetResponseSync considers
    the request complete and returns that fragment with its own rows —
    provided that fragment's sub-batch serial is 0 or 1, the only keys the
    merge loop of a one-element collection ever looks up. -/
theorem c7_total_zero (fuel : Nat) (rm : RMap Row) (requestID : String)
    (frag : Response Row)
    (hfuel : 1 ≤ fuel)
    (herr : slotClean rm "error" = true) (hblank : errFree rm "" = true)
    (hentry : mapGet rm requestID =
      some (RMVal.frags [(runeKey frag.subBatchSerial, frag)]))
    (htotz : frag.totalSubBatches = 0)
    (hserz : frag.subBatchSerial = 0 ∨ frag.subBatchSerial = 1)
    (hdat : frag.data ≠ []) :
    ∃ rm', GetResponseSync fuel rm requestID =
      SyncOutcome.ret (Except.ok frag) rm' := by
  obtain ⟨fuel0, rfl⟩ : ∃ fl, fuel = fl + 1 := ⟨fuel - 1, by omega⟩
  rcases hserz with hs | hs
  · refine ⟨mapSet rm requestID (RMVal.frags
      (mapSet [(runeKey (0 : Int), frag)] (runeKey 0) frag)), ?_⟩
    rw [GetResponseSync, getLoop,
      pollOnce_frags rm none requestID _ herr hblank hentry,
      pollFrags, Option.getD_none, hs,
      if_neg (fun hc => hdat (List.length_eq_zero.mp hc)),
      if_pos (Or.inl htotz)]
    have hlen1 : ((runeKey (0 : Int), frag) :: ([] : FragMap Row)).length = 1 := rfl
    rw [hlen1, Nat.cast_one]
    have hg1 : mapGet [(runeKey (0 : Int), frag)] (runeKey 1) = none := by
      rw [mapGet, if_neg (by decide)]
      rfl
    have hg0 : mapGet [(runeKey (0 : Int), frag)] (runeKey 0) = some frag := by
      rw [mapGet, if_pos rfl]
    rw [hg1, hg0, mergeData_single_zero]
  · refine ⟨mapSet rm requestID (RMVal.frags
      (mapSet [(runeKey (1 : Int), frag)] (runeKey 1) frag)), ?_⟩
    rw [GetResponseSync, getLoop,
      pollOnce_frags rm none requestID _ herr hblank hentry,
      pollFrags, Option.getD_none, hs,
      if_neg (fun hc => hdat (List.length_eq_zero.mp hc)),
      if_pos (Or.inl htotz)]
    have hlen1 : ((runeKey (1 : Int), frag) :: ([] : FragMap Row)).length = 1 := rfl
    rw [hlen1, Nat.cast_one]
    have hg1 : mapGet [(runeKey (1 : Int), frag)] (runeKey 1) = some frag := by
      rw [mapGet, if_pos rfl]
    rw [hg1, mergeData_single_one]

theorem c1_witness :
    retOk (GetResponseSync 3 c1wRM "req-1")
      { c1wF 2 with data := serialConcat 2 c1wF } = true := by
  obtain ⟨rm', h⟩ := c1_merge_ordered 3 c1wRM "req-1" 2 c1wF
    [(runeKey 2, c1wFragB), (runeKey 1, c1wFragA)]
    (by omega) (by omega) (by decide) (by decide) (by decide)
    (by decide) (by decide) (by decide) (by decide) (by decide)
  rw [h]
  simp [retOk]

/-- C1 counterexample: with N equal to 1 the entry holds the single fragment
    of serial 1 declaring total 1, but its row data is empty; GetResponseSync
    returns the no-data error instead of a response whose rows are the
    (empty) concatenation, refuting the claim as stated for every N. -/
theorem c1_counterexample :
    GetResponseSync 1 c1xRM "req-1" =
      SyncOutcome.ret (Except.error "No response from server. Check SQL syntax") c1xRM ∧
    isOkOutcome (GetResponseSync 1 c1xRM "req-1") = false := by decide

/-- C5 counterexample: after the merge the collection no longer stores the
    original latest fragment; its entry now holds the merged response, whose
    row data differs from the fragment's, so the stored fragment objects are
    not left unchanged and the returned response is that stored object, not
    a clone. -/
theorem c5_counterexample :
    GetResponseSync 1 c5xRM "q" =
      SyncOutcome.ret (Except.ok c5xMerged)
        (mapSet c5xRM "q" (RMVal.frags (mapSet c5xMap (runeKey 2) c5xMerged))) ∧
    mapGet (mapSet c5xMap (runeKey 2) c5xMerged) (runeKey 2) = some c5xMerged ∧
    c5xMerged ≠ c5xFrag2 := by decide

theorem c5_witness :
    GetResponseSync 2 c5xRM "q" =
      SyncOutcome.ret (Except.ok { c5wF 2 with data := serialConcat 2 c5wF })
        (mapSet c5xRM "q" (RMVal.frags (mapSet c5xMap (runeKey ((2 : Nat) : Int))
          { c5wF 2 with data := serialConcat 2 c5wF }))) :=
  (c5_merge_writeback 2 c5xRM "q" 2 c5wF c5xMap
    (by omega) (by omega) (by decide) (by decide) (by decide)
    (by decide) (by decide) (by decide) (by decide)).1

theorem c6_witness :
    GetResponseSync 5 c6wRM "w" =
      SyncOutcome.ret (Except.error "No response from server. Check SQL syntax") c6wRM :=
  c6_empty_first_fragment 5 c6wRM "w" (runeKey 1) c6wFrag []
    (by omega) (by decide) (by decide) (by decide) (by decide)

theorem c7_witness :
    retOk (GetResponseSync 4 c7wRM "u") c7wFrag = true := by
  obtain ⟨rm', h⟩ := c7_total_zero 4 c7wRM "u" c7wFrag
    (by omega) (by decide) (by decide) (by decide) (by decide) (by decide) (by decide)
  rw [h]
  simp [retOk]

/-- C7 counterexample: a single stored fragment with declared total 0 but
    sub-batch serial 2 is never found by the merge loop of GetResponseSync
    (which only looks up the keys of the count and of zero); the nil
    interface assertion panics instead of returning the fragment's rows. -/
theorem c7_counterexample :
    GetResponseSync 1 c7xRM "u" = SyncOutcome.panicked := by decide

/-- C3: a frame whose bytes fail JSON decoding with no partial object (for
    example plain non-JSON text, a syntax error) leaves the response pointer
    nil; the receiver then dereferences it to read the request id and
    panics instead of recording a request-scoped error and continuing, and
    the deferred shutdown tears the connection down — contradicting the
    claim that a decoding failure never causes a crash or a teardown. -/
theorem c3_decode_failure_panics (rm : RMap Row) (decodeErrMsg logErrMsg : String)
    (ld : LogDecode) (dataKeys : List String) :
    receiveMessageStep rm DecodeResult.failNil decodeErrMsg ld logErrMsg dataKeys
      = ReceiveOutcome.panicked := rfl

/-- C4 (amended): on every write attempt with an open connection — before
    the write, whether it succeeds or fails — the sender re-arms the idle
    timer with the package default window constants.IdleTimeoutMinutes,
    regardless of the caller-configured idle window stored in the client. -/
theorem c4_idle_reset_uses_default (s : WSSClient Row) (h : Nat) (writeErr : Option String) :
    (match sendMessageIter { s with conn := some h } writeErr with
     | SendOutcome.cont s1 => s1.idleTimerDuration
     | SendOutcome.exit s1 => s1.idleTimerDuration) = IdleTimeoutMinutes := by
  cases writeErr <;> rfl

/-- C4 counterexample: a client configured with a positive idle window of 5
    (minutes; 300000000000 ns after resetIdleTimer) performs a successful
    write; the idle timer is re-armed with the default constant window, not
    with the caller-configured one. -/
theorem c4_counterexample :
    c4xClient.idleTimeoutMinutes = 5 * minuteNs ∧
    (match sendMessageIter c4xClient none with
     | SendOutcome.cont s1 => s1.idleTimerDuration
     | SendOutcome.exit s1 => s1.idleTimerDuration) = IdleTimeoutMinutes ∧
    ¬ (IdleTimeoutMinutes = 5 * minuteNs) := by decide

/-- C8: shutdown is idempotent and, its body being serialised by the client
    mutex (each invocation atomic), two invocations — hence also two racing
    ones, which the mutex orders — produce exactly one teardown effect:
    after the first call the table is empty and the connection nil; the
    second call leaves the state unchanged, closes neither the stop channel
    nor the connection again (clearing an already-empty table is the
    identity); and across both calls the connection is closed exactly once
    when it was open, zero times when it was not. -/
theorem c8_shutdown_idempotent (s : WSSClient Row) :
    (shutdown (shutdown s).1).1 = (shutdown s).1 ∧
    (shutdown s).1.resultsMap = [] ∧
    (shutdown s).1.conn = none ∧
    (shutdown (shutdown s).1).2.closedConn = false ∧
    (shutdown (shutdown s).1).2.closedStop = false ∧
    (shutdown s).2.closedConn.toNat + (shutdown (shutdown s).1).2.closedConn.toNat
      = s.conn.isSome.toNat := by
  obtain ⟨conn, a, b, c, d, e⟩ := s
  cases conn <;> exact ⟨rfl, rfl, rfl, rfl, rfl, rfl⟩

/-- C9: IsWebSocketClosed is false immediately after a Connect whose dial
    succeeded, and true immediately after any teardown path has run
    shutdown — including the idle-timeout path, which re-arms the timer
    right after the shutdown. -/
theorem c9_isclosed_transitions (s s2 : WSSClient Row) (h : Nat) :
    IsWebSocketClosed (Connect s (Except.ok h)) = false ∧
    IsWebSocketClosed (shutdown s2).1 = true ∧
    IsWebSocketClosed (resetIdleTimer (shutdown s2).1) = true := by
  refine ⟨?_, rfl, ?_⟩
  · cases hc : IsWebSocketClosed s
    · simp [Connect, hc]
    · have hc2 : s.conn = none := by
        simpa [IsWebSocketClosed, Option.isNone_iff_eq_none] using hc
      simp [Connect, hc, hc2, connectInner, IsWebSocketClosed]
  · rw [resetIdleTimer]
    by_cases hz : (shutdown s2).1.idleTimeoutMinutes ≤ 0
    · rw [if_pos hz]; rfl
    · rw [if_neg hz]; rfl

/-- C10: every SendMessage, before enqueueing the frame, overwrites both the
    reserved error slot and the request id's own correlation entry with nil
    (pending); consequently any fatal error recorded earlier — from a
    previous request or a connection failure — is discarded from the
    reserved slot as soon as a new request is enqueued, whatever the table
    held before. -/
theorem c10_sendmessage_clears_slots (rm : RMap Row) (rid : String) :
    mapGet (SendMessage rm rid) "error" = some RMVal.nil ∧
    mapGet (SendMessage rm rid) rid = some RMVal.nil := by
  constructor
  · by_cases hq : rid = "error"
    · subst hq
      rw [SendMessage]
      exact mapGet_mapSet_self _ _ _
    · rw [SendMessage, mapGet_mapSet_ne _ _ _ _ (Ne.symm hq)]
      exact mapGet_mapSet_self _ _ _
  · rw [SendMessage]
    exact mapGet_mapSet_self _ _ _

end Wsclient

